import Mathlib

/-!
# EasyAgent: a verification development

A shallow embedding, in Lean 4, of the core data model and operations of the
EasyAgent framework (agents, tool registry, summarizing memory, configuration
loading), together with theorems settling the specification claims about it.

Python strings are modelled as `List Char` (`PyStr`); Python `dict`s that
preserve insertion order are modelled as association lists; the third-party
JSON library (`json.dumps` / `json.loads`) is modelled by an executable
serializer and parser over a JSON syntax tree, with a proved round-trip;
external LLM/tokenizer calls (`litellm`) are modelled as oracle functions
supplied as parameters.
-/

/-- Python strings, modelled as lists of characters. -/
abbrev PyStr := List Char

namespace Py

/-- The Python substring test `sub in s` (`str.__contains__`). -/
def strIn (sub : PyStr) : PyStr → Bool
  | [] => sub.isEmpty
  | c :: rest => sub.isPrefixOf (c :: rest) || strIn sub rest

/-- The first component of Python `s.split(sep)` for a non-empty separator:
the text preceding the first occurrence of `sep` (all of `s` when `sep` does
not occur). -/
def splitFirst (sep : PyStr) : PyStr → PyStr
  | [] => []
  | c :: rest => if sep.isPrefixOf (c :: rest) then [] else c :: splitFirst sep rest

/-- Python's default whitespace set for `str.strip()` (ASCII part). -/
def isSpaceChar (c : Char) : Bool :=
  c = ' ' || c = '\t' || c = '\n' || c = '\r' || c = '\x0b' || c = '\x0c'

/-- Python `s.strip()`: drop leading and trailing whitespace. -/
def strip (s : PyStr) : PyStr :=
  ((s.dropWhile isSpaceChar).reverse.dropWhile isSpaceChar).reverse

/-- `strIn` decides the substring (infix) relation. -/
theorem strIn_iff_substring (sub s : PyStr) : strIn sub s = true ↔ sub <:+: s := by
  induction s with
  | nil =>
    simp [strIn, List.isEmpty_iff]
  | cons c rest ih =>
    simp only [strIn, Bool.or_eq_true, List.infix_cons_iff, ih,
      List.isPrefixOf_iff_prefix]

/-- `splitFirst sep s` is a prefix of `s`. -/
theorem splitFirst_prefix_self (sep s : PyStr) : splitFirst sep s <+: s := by
  induction s with
  | nil => simp [splitFirst]
  | cons c rest ih =>
    by_cases h : sep.isPrefixOf (c :: rest)
    · simp [splitFirst, h]
    · simpa [splitFirst, h] using ih

/-- `strIn` of the empty text is false for a non-empty pattern. -/
theorem strIn_nil (sep : PyStr) (hsep : sep ≠ []) : strIn sep [] = false := by
  cases sep with
  | nil => exact absurd rfl hsep
  | cons a as => rfl

/-- The separator does not occur in the text before its first occurrence. -/
theorem strIn_splitFirst (sep s : PyStr) (hsep : sep ≠ []) :
    strIn sep (splitFirst sep s) = false := by
  induction s with
  | nil => exact strIn_nil sep hsep
  | cons c rest ih =>
    by_cases h : sep.isPrefixOf (c :: rest) = true
    · rw [splitFirst, if_pos h]
      exact strIn_nil sep hsep
    · rw [splitFirst, if_neg h, strIn, ih, Bool.or_false]
      rw [Bool.eq_false_iff]
      intro hpre
      apply h
      rw [List.isPrefixOf_iff_prefix] at hpre ⊢
      cases sep with
      | nil => exact absurd rfl hsep
      | cons a as =>
        rcases List.cons_prefix_cons.mp hpre with ⟨rfl, has⟩
        exact List.cons_prefix_cons.mpr
          ⟨rfl, has.trans (splitFirst_prefix_self (a :: as) rest)⟩

/-- `strip s` is an infix of `s`. -/
theorem strip_infix_self (s : PyStr) : strip s <:+: s := by
  have h1 : s.dropWhile isSpaceChar <:+ s := List.dropWhile_suffix _
  have h2 : strip s <+: s.dropWhile isSpaceChar := by
    rw [strip, ← List.reverse_suffix, List.reverse_reverse]
    exact List.dropWhile_suffix _
  exact h2.isInfix.trans h1.isInfix

/-- Absence of a substring is inherited by infixes. -/
theorem strIn_eq_false_of_substring (sep s t : PyStr) (hinf : t <:+: s)
    (h : strIn sep s = false) : strIn sep t = false := by
  rw [Bool.eq_false_iff] at h ⊢
  intro ht
  exact h ((strIn_iff_substring sep t).mp ht |>.trans hinf |> (strIn_iff_substring sep s).mpr)

end Py

/-!
## JSON model

Model of the third-party `json` library used by the repository
(`json.dumps` in `ToolManager.format_tool_calls`, `json.loads` in
`SummaryMemory._parse_summary`).  JSON values are a syntax tree; `dumps`
follows Python's default rendering (separators `", "` and `": "`, `true` /
`false` / `null` literals, decimal integers); `loads` is a recursive-descent
parser.  Floats are not modelled (the repository never produces them).
-/

mutual

/-- A JSON value. -/
inductive Json where
  | null : Json
  | bool (b : Bool) : Json
  | int (n : Int) : Json
  | str (s : PyStr) : Json
  | arr (xs : JsonList) : Json
  | obj (fs : JsonFields) : Json

/-- A list of JSON values (a JSON array's elements). -/
inductive JsonList where
  | nil : JsonList
  | cons (hd : Json) (tl : JsonList) : JsonList

/-- The fields of a JSON object, in order. -/
inductive JsonFields where
  | nil : JsonFields
  | cons (k : PyStr) (v : Json) (tl : JsonFields) : JsonFields

end

namespace Json

/-- Decimal digits of a natural number, most significant first. -/
def natChars (n : Nat) : PyStr :=
  if h : n < 10 then [Char.ofNat (48 + n)]
  else natChars (n / 10) ++ [Char.ofNat (48 + n % 10)]
  decreasing_by exact Nat.div_lt_self (by omega) (by omega)

/-- Python `str` of an integer. -/
def intChars (n : Int) : PyStr :=
  if n < 0 then '-' :: natChars n.natAbs else natChars n.toNat

/-- JSON string escaping (the escapes the repository's data can produce:
quote and backslash; other characters are emitted literally). -/
def escapeChar (c : Char) : PyStr :=
  if c = '"' then ['\\', '"'] else if c = '\\' then ['\\', '\\'] else [c]

/-- Escape a whole string body. -/
def escape : PyStr → PyStr
  | [] => []
  | c :: rest => escapeChar c ++ escape rest

/-- Serialize a JSON string with its surrounding quotes. -/
def dumpStr (s : PyStr) : PyStr := '"' :: (escape s ++ ['"'])

mutual

/-- `json.dumps` of a value (Python defaults). -/
def dumpsV : Json → PyStr
  | .null => 'n' :: 'u' :: 'l' :: 'l' :: []
  | .bool true => 't' :: 'r' :: 'u' :: 'e' :: []
  | .bool false => 'f' :: 'a' :: 'l' :: 's' :: 'e' :: []
  | .int n => intChars n
  | .str s => dumpStr s
  | .arr xs => '[' :: (dumpsElems xs ++ [']'])
  | .obj fs => '{' :: (dumpsFields fs ++ ['}'])

/-- Array elements joined by `", "`. -/
def dumpsElems : JsonList → PyStr
  | .nil => []
  | .cons x .nil => dumpsV x
  | .cons x xs => dumpsV x ++ ',' :: ' ' :: dumpsElems xs

/-- Object fields rendered as `"key": value` joined by `", "`. -/
def dumpsFields : JsonFields → PyStr
  | .nil => []
  | .cons k v .nil => dumpStr k ++ ':' :: ' ' :: dumpsV v
  | .cons k v fs => dumpStr k ++ ':' :: ' ' :: dumpsV v ++ ',' :: ' ' :: dumpsFields fs

end

/-- `json.dumps`. -/
def dumps (j : Json) : PyStr := dumpsV j

/-- Undo `escapeChar` on the character following a backslash. -/
def unescapeChar (c : Char) : Option Char :=
  if c = '"' then some '"' else if c = '\\' then some '\\' else none

/-- Parse a JSON string body up to the closing quote. -/
def parseStr : PyStr → Option (PyStr × PyStr)
  | [] => none
  | c :: rest =>
    if c = '"' then some ([], rest)
    else if c = '\\' then
      match rest with
      | [] => none
      | e :: rest2 =>
        match unescapeChar e with
        | some u => (parseStr rest2).map fun p => (u :: p.1, p.2)
        | none => none
    else (parseStr rest).map fun p => (c :: p.1, p.2)

/-- Numeric value of a digit run (most significant first). -/
def digitsVal (ds : PyStr) : Nat :=
  ds.foldl (fun a c => a * 10 + (c.toNat - 48)) 0

/-- Parse a run of decimal digits (at least one). -/
def parseDigits (input : PyStr) : Option (Nat × PyStr) :=
  let ds := input.takeWhile Char.isDigit
  if ds.isEmpty then none else some (digitsVal ds, input.dropWhile Char.isDigit)

/-- Does the input start with the given character? -/
def headIs : PyStr → Char → Bool
  | x :: _, c => x = c
  | [], _ => false

/-- Does the input start with the given two characters? -/
def headIs2 : PyStr → Char → Char → Bool
  | x :: y :: _, a, b => x = a && y = b
  | _, _, _ => false

mutual

/-- Fuel-indexed recursive-descent JSON value parser. -/
def parseV : Nat → PyStr → Option (Json × PyStr)
  | 0, _ => none
  | _ + 1, [] => none
  | fuel + 1, c :: rest =>
    if c = '"' then (parseStr rest).map fun p => (.str p.1, p.2)
    else if c = '[' then
      if headIs rest ']' then some (.arr .nil, rest.tail)
      else
        match parseElems fuel rest with
        | some (xs, r) => if headIs r ']' then some (.arr xs, r.tail) else none
        | none => none
    else if c = '{' then
      if headIs rest '}' then some (.obj .nil, rest.tail)
      else
        match parseFields fuel rest with
        | some (fs, r) => if headIs r '}' then some (.obj fs, r.tail) else none
        | none => none
    else if c = 'n' then
      match rest with
      | 'u' :: 'l' :: 'l' :: rest2 => some (.null, rest2)
      | _ => none
    else if c = 't' then
      match rest with
      | 'r' :: 'u' :: 'e' :: rest2 => some (.bool true, rest2)
      | _ => none
    else if c = 'f' then
      match rest with
      | 'a' :: 'l' :: 's' :: 'e' :: rest2 => some (.bool false, rest2)
      | _ => none
    else if c = '-' then
      (parseDigits rest).map fun p => (.int (-(p.1 : Int)), p.2)
    else if c.isDigit then
      (parseDigits (c :: rest)).map fun p => (.int (p.1 : Int), p.2)
    else none

/-- Parse one or more `", "`-separated array elements. -/
def parseElems : Nat → PyStr → Option (JsonList × PyStr)
  | 0, _ => none
  | fuel + 1, input =>
    match parseV fuel input with
    | none => none
    | some (v, r) =>
      if headIs2 r ',' ' ' then
        match parseElems fuel r.tail.tail with
        | some (vs, r3) => some (.cons v vs, r3)
        | none => none
      else some (.cons v .nil, r)

/-- Parse one or more `", "`-separated `"key": value` object fields. -/
def parseFields : Nat → PyStr → Option (JsonFields × PyStr)
  | 0, _ => none
  | fuel + 1, input =>
    match input with
    | '"' :: r0 =>
      match parseStr r0 with
      | none => none
      | some (k, r1) =>
        if headIs2 r1 ':' ' ' then
          match parseV fuel r1.tail.tail with
          | none => none
          | some (v, r3) =>
            if headIs2 r3 ',' ' ' then
              match parseFields fuel r3.tail.tail with
              | some (fs, r5) => some (.cons k v fs, r5)
              | none => none
            else some (.cons k v .nil, r3)
        else none
    | _ => none

end

/-- `json.loads`: parse a complete document, rejecting trailing garbage. -/
def loads (s : PyStr) : Option Json :=
  match parseV (s.length + 1) s with
  | some (j, []) => some j
  | _ => none

end Json

namespace Json

/-- The digit characters emitted by `natChars` decode back to their value. -/
theorem digitChar_toNat (d : Nat) (h : d < 10) : (Char.ofNat (48 + d)).toNat = 48 + d := by
  interval_cases d <;> decide

/-- The characters emitted by `natChars` are decimal digits. -/
theorem digitChar_isDigit (d : Nat) (h : d < 10) : (Char.ofNat (48 + d)).isDigit = true := by
  interval_cases d <;> decide

/-- `natChars` never returns the empty string. -/
theorem natChars_ne_nil (n : Nat) : natChars n ≠ [] := by
  rw [natChars]
  split <;> simp

/-- Every character of `natChars n` is a decimal digit. -/
theorem natChars_digits (n : Nat) : ∀ c ∈ natChars n, c.isDigit = true := by
  induction n using Nat.strong_induction_on with
  | _ n ih =>
    rw [natChars]
    split
    · next h =>
      intro c hc
      simp only [List.mem_singleton] at hc
      exact hc ▸ digitChar_isDigit n h
    · next h =>
      intro c hc
      rcases List.mem_append.mp hc with h1 | h1
      · exact ih (n / 10) (Nat.div_lt_self (by omega) (by omega)) c h1
      · simp only [List.mem_singleton] at h1
        exact h1 ▸ digitChar_isDigit (n % 10) (Nat.mod_lt _ (by omega))

/-- Decoding the decimal rendering of `n` gives back `n`. -/
theorem digitsVal_natChars (n : Nat) : digitsVal (natChars n) = n := by
  induction n using Nat.strong_induction_on with
  | _ n ih =>
    rw [natChars]
    split
    · next h =>
      simp only [digitsVal, List.foldl_cons, List.foldl_nil]
      rw [digitChar_toNat n h]
      omega
    · next h =>
      simp only [digitsVal, List.foldl_append, List.foldl_cons, List.foldl_nil]
      have := ih (n / 10) (Nat.div_lt_self (by omega) (by omega))
      simp only [digitsVal] at this
      rw [this, digitChar_toNat (n % 10) (Nat.mod_lt _ (by omega))]
      omega

/-- "The next character, if any, is not a digit": the condition under which
the number parser stops exactly at a value boundary. -/
def noDigitHead : PyStr → Prop
  | [] => True
  | c :: _ => c.isDigit = false

/-- The digit parser consumes exactly a rendered natural number. -/
theorem parseDigits_natChars (n : Nat) (rest : PyStr) (hrest : noDigitHead rest) :
    parseDigits (natChars n ++ rest) = some (n, rest) := by
  have hto : (natChars n ++ rest).takeWhile Char.isDigit = natChars n := by
    rw [List.takeWhile_append_of_pos (natChars_digits n)]
    cases rest with
    | nil => simp
    | cons c t =>
      have hc : c.isDigit = false := hrest
      simp [List.takeWhile_cons, hc]
  have hdrop : (natChars n ++ rest).dropWhile Char.isDigit = rest := by
    rw [List.dropWhile_append_of_pos (natChars_digits n)]
    cases rest with
    | nil => simp
    | cons c t =>
      have hc : c.isDigit = false := hrest
      simp [List.dropWhile_cons, hc]
  rw [parseDigits]
  simp only [hto, hdrop, List.isEmpty_iff]
  rw [if_neg (natChars_ne_nil n)]
  rw [digitsVal_natChars]

/-- A digit differs from any non-digit character. -/
theorem ne_of_isDigit (c x : Char) (hc : c.isDigit = true) (hx : x.isDigit = false) :
    c ≠ x := by
  intro h
  rw [h, hx] at hc
  cases hc

/-- Parsing an escaped string body consumes it up to the closing quote. -/
theorem parseStr_escape (s : PyStr) : ∀ rest : PyStr,
    parseStr (escape s ++ '"' :: rest) = some (s, rest) := by
  induction s with
  | nil =>
    intro rest
    rw [escape, List.nil_append, parseStr.eq_def]
    simp
  | cons c cs ih =>
    intro rest
    by_cases h1 : c = '"'
    · subst h1
      rw [escape, escapeChar]
      simp only [if_pos rfl, List.cons_append, List.append_assoc]
      rw [parseStr.eq_def]
      simp [unescapeChar, ih]
    · by_cases h2 : c = '\\'
      · subst h2
        rw [escape, escapeChar]
        simp only [if_neg (by decide : ¬('\\' : Char) = '"'), if_pos rfl,
          List.cons_append, List.append_assoc]
        rw [parseStr.eq_def]
        simp [unescapeChar, ih]
      · rw [escape, escapeChar, if_neg h1, if_neg h2]
        simp only [List.cons_append, List.nil_append]
        rw [parseStr.eq_def]
        simp [h1, h2, ih]

mutual

/-- Parser fuel measure of a value. -/
def muV : Json → Nat
  | .null => 1
  | .bool _ => 1
  | .int _ => 1
  | .str _ => 1
  | .arr xs => 1 + muL xs
  | .obj fs => 1 + muF fs

/-- Parser fuel measure of an element list. -/
def muL : JsonList → Nat
  | .nil => 0
  | .cons x xs => 1 + muV x + muL xs

/-- Parser fuel measure of a field list. -/
def muF : JsonFields → Nat
  | .nil => 0
  | .cons _ v fs => 1 + muV v + muF fs

end

/-- "The next character, if any, is neither a digit nor a comma": the
condition under which list/field parsing stops exactly at a serialization
boundary. -/
def sepSafe : PyStr → Prop
  | [] => True
  | c :: _ => c.isDigit = false ∧ c ≠ ','

/-- `sepSafe` includes the digit condition. -/
theorem sepSafe.toNoDigit (s : PyStr) (h : sepSafe s) : noDigitHead s := by
  cases s with
  | nil => trivial
  | cons c t => exact h.1

/-- A rendered natural number starts with a digit. -/
theorem natChars_cons (n : Nat) :
    ∃ c t, natChars n = c :: t ∧ c.isDigit = true := by
  cases h : natChars n with
  | nil => exact absurd h (natChars_ne_nil n)
  | cons c t =>
    exact ⟨c, t, rfl, natChars_digits n c (h ▸ List.mem_cons_self c t)⟩

/-- A serialized value starts with a character that is not `]`, `}`, comma
or space. -/
theorem dumpsV_head (j : Json) :
    ∃ c t, dumpsV j = c :: t ∧ c ≠ ']' ∧ c ≠ '}' ∧ c ≠ ',' ∧ c ≠ ' ' := by
  cases j with
  | null => exact ⟨'n', _, rfl, by decide, by decide, by decide, by decide⟩
  | bool b =>
    cases b with
    | true => exact ⟨'t', _, rfl, by decide, by decide, by decide, by decide⟩
    | false => exact ⟨'f', _, rfl, by decide, by decide, by decide, by decide⟩
  | int n =>
    by_cases hn : n < 0
    · refine ⟨'-', natChars n.natAbs, ?_, by decide, by decide, by decide, by decide⟩
      simp [dumpsV, intChars, hn]
    · obtain ⟨c, t, hct, hd⟩ := natChars_cons n.toNat
      refine ⟨c, t, by simp [dumpsV, intChars, hn, hct], ?_, ?_, ?_, ?_⟩ <;>
        exact ne_of_isDigit c _ hd (by decide)
  | str s => exact ⟨'"', _, rfl, by decide, by decide, by decide, by decide⟩
  | arr xs => exact ⟨'[', _, rfl, by decide, by decide, by decide, by decide⟩
  | obj fs => exact ⟨'{', _, rfl, by decide, by decide, by decide, by decide⟩

/-- A serialized non-empty element list starts like its first value. -/
theorem dumpsElems_head (x : Json) (xs : JsonList) :
    ∃ c t, dumpsElems (.cons x xs) = c :: t ∧ c ≠ ']' := by
  obtain ⟨c, t, hct, h1, _, _, _⟩ := dumpsV_head x
  cases xs with
  | nil => exact ⟨c, t, by simp [dumpsElems, hct], h1⟩
  | cons y ys =>
    exact ⟨c, t ++ ',' :: ' ' :: dumpsElems (.cons y ys),
      by simp [dumpsElems, hct], h1⟩

/-- The integer parser branch consumes exactly a rendered integer. -/
theorem parseV_int (n : Int) (rest : PyStr) (fuel : Nat) (hrest : noDigitHead rest) :
    parseV (fuel + 1) (intChars n ++ rest) = some (.int n, rest) := by
  by_cases hn : n < 0
  · rw [intChars, if_pos hn]
    simp only [List.cons_append]
    simp [parseV, parseDigits_natChars n.natAbs rest hrest]
    simp [abs_of_neg hn]
  · rw [intChars, if_neg hn]
    obtain ⟨c, t, hct, hd⟩ := natChars_cons n.toNat
    rw [hct]
    simp only [List.cons_append]
    have h1 := ne_of_isDigit c '"' hd (by decide)
    have h2 := ne_of_isDigit c '[' hd (by decide)
    have h3 := ne_of_isDigit c '{' hd (by decide)
    have h4 := ne_of_isDigit c 'n' hd (by decide)
    have h5 := ne_of_isDigit c 't' hd (by decide)
    have h6 := ne_of_isDigit c 'f' hd (by decide)
    have h7 := ne_of_isDigit c '-' hd (by decide)
    simp [parseV, h1, h2, h3, h4, h5, h6, h7, hd]
    refine ⟨n.toNat, ?_, by omega⟩
    rw [show c :: (t ++ rest) = natChars n.toNat ++ rest by
      rw [← List.cons_append, hct]]
    exact parseDigits_natChars n.toNat rest hrest

/-- Two-character lookahead fails on a separator-safe remainder. -/
theorem sepSafe_headIs2 (rest : PyStr) (hs : sepSafe rest) :
    headIs2 rest ',' ' ' = false := by
  cases rest with
  | nil => rfl
  | cons c t =>
    cases t with
    | nil => rfl
    | cons d t2 => simp [headIs2, hs.2]

mutual

/-- The parser inverts the serializer on values, for sufficient fuel, when
the remainder does not begin with a digit. -/
theorem parseV_dumps : ∀ (j : Json) (rest : PyStr) (fuel : Nat),
    muV j ≤ fuel → noDigitHead rest →
    parseV fuel (dumpsV j ++ rest) = some (j, rest)
  | .null, rest, fuel, hf, _ => by
    obtain ⟨f, rfl⟩ : ∃ f, fuel = f + 1 := ⟨fuel - 1, by simp [muV] at hf; omega⟩
    simp [dumpsV, parseV]
  | .bool true, rest, fuel, hf, _ => by
    obtain ⟨f, rfl⟩ : ∃ f, fuel = f + 1 := ⟨fuel - 1, by simp [muV] at hf; omega⟩
    simp [dumpsV, parseV]
  | .bool false, rest, fuel, hf, _ => by
    obtain ⟨f, rfl⟩ : ∃ f, fuel = f + 1 := ⟨fuel - 1, by simp [muV] at hf; omega⟩
    simp [dumpsV, parseV]
  | .int n, rest, fuel, hf, hr => by
    obtain ⟨f, rfl⟩ : ∃ f, fuel = f + 1 := ⟨fuel - 1, by simp [muV] at hf; omega⟩
    have := parseV_int n rest f hr
    simpa [dumpsV] using this
  | .str s, rest, fuel, hf, _ => by
    obtain ⟨f, rfl⟩ : ∃ f, fuel = f + 1 := ⟨fuel - 1, by simp [muV] at hf; omega⟩
    simp [dumpsV, dumpStr, parseV, parseStr_escape]
  | .arr .nil, rest, fuel, hf, _ => by
    obtain ⟨f, rfl⟩ : ∃ f, fuel = f + 1 := ⟨fuel - 1, by simp [muV] at hf; omega⟩
    simp [dumpsV, dumpsElems, parseV, headIs]
  | .arr (.cons x xs), rest, fuel, hf, _ => by
    obtain ⟨f, rfl⟩ : ∃ f, fuel = f + 1 := ⟨fuel - 1, by simp [muV] at hf; omega⟩
    obtain ⟨c, t, hct, hc⟩ := dumpsElems_head x xs
    have hel := parseElems_dumps (.cons x xs) (']' :: rest) f
      (by simp [muV] at hf; omega) (by simp) ⟨by decide, by decide⟩
    rw [hct] at hel
    simp only [List.cons_append, List.append_assoc] at hel
    simp only [dumpsV, List.cons_append, List.append_assoc, hct]
    simp [parseV, headIs, hc, hel]
  | .obj .nil, rest, fuel, hf, _ => by
    obtain ⟨f, rfl⟩ : ∃ f, fuel = f + 1 := ⟨fuel - 1, by simp [muV] at hf; omega⟩
    simp [dumpsV, dumpsFields, parseV, headIs]
  | .obj (.cons k v fs), rest, fuel, hf, _ => by
    obtain ⟨f, rfl⟩ : ∃ f, fuel = f + 1 := ⟨fuel - 1, by simp [muV] at hf; omega⟩
    have hfl := parseFields_dumps (.cons k v fs) ('}' :: rest) f
      (by simp [muV] at hf; omega) (by simp) ⟨by decide, by decide⟩
    have hhead : ∃ t0, dumpsFields (.cons k v fs) = '"' :: t0 := by
      cases fs <;> simp [dumpsFields, dumpStr]
    obtain ⟨t0, ht0⟩ := hhead
    rw [ht0] at hfl
    simp only [List.cons_append, List.append_assoc] at hfl
    simp only [dumpsV, List.cons_append, List.append_assoc, ht0]
    simp [parseV, headIs, hfl]

/-- The parser inverts the serializer on non-empty element lists, for
sufficient fuel, when the remainder is separator-safe. -/
theorem parseElems_dumps : ∀ (xs : JsonList) (rest : PyStr) (fuel : Nat),
    muL xs ≤ fuel → xs ≠ .nil → sepSafe rest →
    parseElems fuel (dumpsElems xs ++ rest) = some (xs, rest)
  | .nil, _, _, _, hne, _ => absurd rfl hne
  | .cons x .nil, rest, fuel, hf, _, hs => by
    obtain ⟨f, rfl⟩ : ∃ f, fuel = f + 1 := ⟨fuel - 1, by simp [muL] at hf; omega⟩
    have hv := parseV_dumps x rest f (by simp [muL] at hf; omega)
      (hs.toNoDigit rest)
    simp [dumpsElems, parseElems, hv, sepSafe_headIs2 rest hs]
  | .cons x (.cons y ys), rest, fuel, hf, _, hs => by
    obtain ⟨f, rfl⟩ : ∃ f, fuel = f + 1 := ⟨fuel - 1, by simp [muL] at hf; omega⟩
    have hv := parseV_dumps x (',' :: ' ' :: (dumpsElems (.cons y ys) ++ rest)) f
      (by simp [muL] at hf; omega) (by exact rfl)
    have he := parseElems_dumps (.cons y ys) rest f
      (by simp [muL] at hf ⊢; omega) (by simp) hs
    simp only [dumpsElems, List.cons_append, List.append_assoc]
    simp only [List.cons_append] at hv
    simp [parseElems, hv, headIs2, he]

/-- The parser inverts the serializer on non-empty field lists, for
sufficient fuel, when the remainder is separator-safe. -/
theorem parseFields_dumps : ∀ (fs : JsonFields) (rest : PyStr) (fuel : Nat),
    muF fs ≤ fuel → fs ≠ .nil → sepSafe rest →
    parseFields fuel (dumpsFields fs ++ rest) = some (fs, rest)
  | .nil, _, _, _, hne, _ => absurd rfl hne
  | .cons k v .nil, rest, fuel, hf, _, hs => by
    obtain ⟨f, rfl⟩ : ∃ f, fuel = f + 1 := ⟨fuel - 1, by simp [muF] at hf; omega⟩
    have hv := parseV_dumps v rest f (by simp [muF] at hf; omega)
      (hs.toNoDigit rest)
    simp only [dumpsFields, dumpStr, List.cons_append, List.append_assoc]
    have hh := sepSafe_headIs2 rest hs
    simp only [headIs2] at hh
    simp [parseFields, parseStr_escape, headIs2, hv, hh]
  | .cons k v (.cons k2 v2 fs2), rest, fuel, hf, _, hs => by
    obtain ⟨f, rfl⟩ : ∃ f, fuel = f + 1 := ⟨fuel - 1, by simp [muF] at hf; omega⟩
    have hv := parseV_dumps v
      (',' :: ' ' :: (dumpsFields (.cons k2 v2 fs2) ++ rest)) f
      (by simp [muF] at hf; omega) (by exact rfl)
    have hrec := parseFields_dumps (.cons k2 v2 fs2) rest f
      (by simp [muF] at hf ⊢; omega) (by simp) hs
    simp only [dumpsFields, dumpStr, List.cons_append, List.append_assoc]
    simp only [List.cons_append] at hv
    simp [parseFields, parseStr_escape, headIs2, hv, hrec]

end

/-- A rendered integer is non-empty. -/
theorem intChars_ne_nil (n : Int) : intChars n ≠ [] := by
  rw [intChars]
  split
  · simp
  · exact natChars_ne_nil n.toNat

mutual

/-- The fuel measure of a value is bounded by its serialized length. -/
theorem muV_le : ∀ j : Json, muV j ≤ (dumpsV j).length
  | .null => by simp [muV, dumpsV]
  | .bool b => by cases b <;> simp [muV, dumpsV]
  | .int n => by
    have h := intChars_ne_nil n
    have : 1 ≤ (intChars n).length := by
      cases hi : intChars n with
      | nil => exact absurd hi h
      | cons a t => simp
    simpa [muV, dumpsV] using this
  | .str s => by simp [muV, dumpsV, dumpStr]
  | .arr xs => by
    have h := muL_le xs
    simp only [muV, dumpsV, List.length_cons, List.length_append] at h ⊢
    omega
  | .obj fs => by
    have h := muF_le fs
    simp only [muV, dumpsV, List.length_cons, List.length_append] at h ⊢
    omega

/-- The fuel measure of an element list is bounded by its serialized
length plus one. -/
theorem muL_le : ∀ xs : JsonList, muL xs ≤ (dumpsElems xs).length + 1
  | .nil => by simp [muL]
  | .cons x .nil => by
    have h := muV_le x
    simp only [muL, dumpsElems]
    omega
  | .cons x (.cons y ys) => by
    have h1 := muV_le x
    have h2 := muL_le (.cons y ys)
    simp only [muL] at h2 ⊢
    simp only [dumpsElems, List.length_append, List.length_cons]
    omega

/-- The fuel measure of a field list is bounded by its serialized length
plus one. -/
theorem muF_le : ∀ fs : JsonFields, muF fs ≤ (dumpsFields fs).length + 1
  | .nil => by simp [muF]
  | .cons k v .nil => by
    have h := muV_le v
    simp only [muF, dumpsFields, List.length_append, List.length_cons]
    omega
  | .cons k v (.cons k2 v2 fs2) => by
    have h1 := muV_le v
    have h2 := muF_le (.cons k2 v2 fs2)
    simp only [muF] at h2 ⊢
    simp only [dumpsFields, List.length_append, List.length_cons]
    omega

end

/-- Round trip: decoding a serialized JSON value yields it back. -/
theorem loads_dumps (j : Json) : loads (dumps j) = some j := by
  rw [loads, dumps]
  have h := parseV_dumps j [] ((dumpsV j).length + 1)
    (le_trans (muV_le j) (by omega)) trivial
  rw [List.append_nil] at h
  rw [h]

end Json

/-!
## Data schemas (`model/schema.py`)
-/

/-- `Message.role`: one of the four chat roles. -/
inductive Role where
  | system
  | user
  | assistant
  | tool
deriving DecidableEq, Repr

/-- A formatted tool-call record as stored in message history:
`{"id": ..., "type": ..., "function": {"name": ..., "arguments": <JSON string>}}`
(`ToolManager.format_tool_calls` output shape). -/
structure FormattedToolCall where
  id : PyStr
  type : PyStr
  fname : PyStr
  arguments : PyStr
deriving DecidableEq, Repr

/-- One conversation turn (`Message` in `model/schema.py`). -/
structure Message where
  role : Role
  content : PyStr
  tool_calls : Option (List FormattedToolCall) := none
  tool_call_id : Option PyStr := none
deriving DecidableEq, Repr

/-- `Message.system`. -/
def Message.system (content : PyStr) : Message := { role := .system, content := content }

/-- `Message.user`. -/
def Message.user (content : PyStr) : Message := { role := .user, content := content }

/-- `Message.assistant`. -/
def Message.assistant (content : PyStr)
    (tool_calls : Option (List FormattedToolCall) := none) : Message :=
  { role := .assistant, content := content, tool_calls := tool_calls }

/-- `Message.tool`. -/
def Message.tool (content : PyStr) (tool_call_id : PyStr) : Message :=
  { role := .tool, content := content, tool_call_id := some tool_call_id }

/-- One tool-invocation request emitted by a model (`ToolCall`). Its
`arguments` mapping is a JSON object (already decoded from the wire). -/
structure ToolCall where
  id : PyStr
  type : PyStr
  name : PyStr
  arguments : JsonFields

/-- The uniform result of one model call (`LLMResponse`). -/
structure LLMResponse where
  content : PyStr
  reasoning_content : Option PyStr := none
  tool_calls : Option (List ToolCall) := none

/-!
## Tool subsystem (`tool/base.py`, `tool/manager.py`)
-/

/-- A registered tool (the `Tool` protocol): `parameters` is optional, as
probed by `getattr` in `ToolManager._tool_to_schema`. -/
structure Tool where
  name : PyStr
  type : PyStr
  description : PyStr
  parameters : Option Json := none

/-- The singleton registry state: an insertion-ordered mapping from tool
name to tool (`ToolManager._tools`). -/
structure ToolManager where
  tools : List (PyStr × Tool)

namespace ToolManager

/-- Python `dict` assignment `d[k] = v`: replace in place if the key is
present, else append. -/
def dictSet (d : List (PyStr × Tool)) (k : PyStr) (v : Tool) : List (PyStr × Tool) :=
  match d with
  | [] => [(k, v)]
  | p :: rest => if p.1 = k then (k, v) :: rest else p :: dictSet rest k v

/-- `ToolManager.register`: run the `init` hook (stateless here) and store
the tool under its name, overwriting a previous entry with that name.  The
`isinstance` protocol check always succeeds in this typed model. -/
def register (m : ToolManager) (t : Tool) : ToolManager :=
  ⟨dictSet m.tools t.name t⟩

/-- `ToolManager.get`: non-throwing lookup. -/
def get (m : ToolManager) (name : PyStr) : Option Tool :=
  List.lookup name m.tools

/-- `ToolManager.clear`. -/
def clear (_ : ToolManager) : ToolManager := ⟨[]⟩

/-- A provider-facing schema entry
`{type, function: {name, description, parameters}}`. -/
structure Schema where
  type : PyStr
  fname : PyStr
  description : PyStr
  parameters : Json

/-- The default parameter schema `{"type": "object", "properties": {}}`. -/
def defaultParameters : Json :=
  .obj (.cons "type".data (.str "object".data)
    (.cons "properties".data (.obj .nil) .nil))

/-- `ToolManager._tool_to_schema`. -/
def toolToSchema (t : Tool) : Schema :=
  { type := t.type, fname := t.name, description := t.description,
    parameters := t.parameters.getD defaultParameters }

/-- `ToolManager.get_schema`: note the Python truthiness test `if names:`
— an empty list behaves like an omitted argument. -/
def getSchema (m : ToolManager) (names : Option (List PyStr)) : List Schema :=
  let tools : List Tool :=
    match names with
    | some ns =>
      if ns.isEmpty then m.tools.map (fun p => p.2)
      else ns.filterMap fun n => List.lookup n m.tools
    | none => m.tools.map (fun p => p.2)
  tools.map toolToSchema

/-- `ToolManager.format_tool_calls`: render `ToolCall`s into the wire shape
stored in assistant messages, JSON-encoding each `arguments` mapping. -/
def formatToolCalls (tcs : List ToolCall) : List FormattedToolCall :=
  tcs.map fun tc =>
    { id := tc.id, type := tc.type, fname := tc.name,
      arguments := Json.dumps (.obj tc.arguments) }

end ToolManager

/-!
## Summary memory (`memory/summary.py`)

External `litellm` calls (token counting, summarization completions) are
modelled by a `SummaryOracle` of arbitrary functions; the prompt templates
live in `prompt/memory.py`, which is not under `src/`, so the oracle's
`summarize`/`compress` compose template and model call, and the rendering
template `summaryFormat` is modelled from the spec.
-/

/-- The five-field record produced by `SummaryMemory._parse_summary`. -/
structure SummaryRecord where
  task_context : PyStr
  key_decisions : PyStr
  actions_taken : PyStr
  current_state : PyStr
  important_info : PyStr
deriving DecidableEq, Repr

/-- The all-`"N/A"` default record. -/
def defaultRecord : SummaryRecord :=
  { task_context := "N/A".data, key_decisions := "N/A".data,
    actions_taken := "N/A".data, current_state := "N/A".data,
    important_info := "N/A".data }

/-- Python `raw.find(c)`: index of the first occurrence, if any. -/
def pyFind (c : Char) (s : PyStr) : Option Nat :=
  s.findIdx? (fun x => x = c)

/-- Python `raw.rfind(c)`: index of the last occurrence, if any. -/
def pyRFind (c : Char) (s : PyStr) : Option Nat :=
  match s.reverse.findIdx? (fun x => x = c) with
  | some i => some (s.length - 1 - i)
  | none => none

/-- Python `str` of a decoded JSON value, as interpolated into the summary
(strings render without quotes; containers render in JSON style in this
model). -/
def jsonToPy (j : Json) : PyStr :=
  match j with
  | .str s => s
  | .int n => Json.intChars n
  | .bool true => "True".data
  | .bool false => "False".data
  | .null => "None".data
  | .arr xs => Json.dumpsV (.arr xs)
  | .obj fs => Json.dumpsV (.obj fs)

/-- Join rendered pieces with newlines (Python `"\n".join`). -/
def joinNL : List PyStr → PyStr
  | [] => []
  | [x] => x
  | x :: xs => x ++ '\n' :: joinNL xs

/-- The list-coercion step of `_parse_summary`: a JSON array becomes one
`- item` bullet per line; other values are interpolated as Python `str`. -/
def coerceValue (j : Json) : PyStr :=
  match j with
  | .arr xs => joinNL (jsonListToList xs |>.map fun x => "- ".data ++ jsonToPy x)
  | _ => jsonToPy j
where
  /-- Unfold a `JsonList` into a `List Json`. -/
  jsonListToList : JsonList → List Json
    | .nil => []
    | .cons x xs => x :: jsonListToList xs

/-- Lookup of a key in decoded JSON object fields (`data[k]`; the decoder
keeps the last duplicate, as Python's `json.loads` does). -/
def fieldsGet (fs : JsonFields) (key : PyStr) : Option Json :=
  match fs with
  | .nil => none
  | .cons k v tl =>
    match fieldsGet tl key with
    | some r => some r
    | none => if k = key then some v else none

/-- One five-field lookup with the `{**default, **data}` fallback. -/
def fieldOr (fs : JsonFields) (key : PyStr) : PyStr :=
  match fieldsGet fs key with
  | some v => coerceValue v
  | none => "N/A".data

/-- The fallback record: `{**default, "task_context": raw[:500]}`. -/
def fallbackRecord (raw : PyStr) : SummaryRecord :=
  { defaultRecord with task_context := raw.take 500 }

/-- Does `raw` contain a `{` ... `}` span (`start >= 0 and end > start` in
`_parse_summary`)? -/
def hasJsonSpan (raw : PyStr) : Bool :=
  match pyFind '{' raw, pyRFind '}' raw with
  | some s, some e => decide (e + 1 > s)
  | _, _ => false

/-- `SummaryMemory._parse_summary`: extract the first-`{`-to-last-`}` span,
decode it as JSON, coerce list values to bullet lines, and fill the five
fields with `"N/A"` defaults; on any failure fall back to the raw text
truncated to 500 characters as `task_context`. -/
def parseSummary (raw : PyStr) : SummaryRecord :=
  match pyFind '{' raw, pyRFind '}' raw with
  | some s, some e =>
    if e + 1 > s then
      match Json.loads ((raw.drop s).take (e + 1 - s)) with
      | some (.obj fs) =>
        { task_context := fieldOr fs "task_context".data
          key_decisions := fieldOr fs "key_decisions".data
          actions_taken := fieldOr fs "actions_taken".data
          current_state := fieldOr fs "current_state".data
          important_info := fieldOr fs "important_info".data }
      | _ => fallbackRecord raw
    else fallbackRecord raw
  | _, _ => fallbackRecord raw

/-- Modelled from the spec: `SUMMARY_FORMAT` (defined in `prompt/memory.py`,
which is not under `src/`): "a template that renders the five fields into a
fixed-structure markdown-like block". -/
def summaryFormat (r : SummaryRecord) : PyStr :=
  "## Task Context\n".data ++ r.task_context ++
  "\n\n## Key Decisions\n".data ++ r.key_decisions ++
  "\n\n## Actions Taken\n".data ++ r.actions_taken ++
  "\n\n## Current State\n".data ++ r.current_state ++
  "\n\n## Important Info\n".data ++ r.important_info

/-- Python truthiness of the optional summary string (`if self._summary:`):
`None` and the empty string are falsy. -/
def pyTruthy : Option PyStr → Bool
  | none => false
  | some s => !s.isEmpty

/-- Upper-cased role name (`m.role.upper()`). -/
def roleUpper : Role → PyStr
  | .system => "SYSTEM".data
  | .user => "USER".data
  | .assistant => "ASSISTANT".data
  | .tool => "TOOL".data

/-- A repr-like rendering of one stored tool-call record (model of Python
`str` on the history dict). -/
def formattedRepr (f : FormattedToolCall) : PyStr :=
  "\x7b\"id\": \"".data ++ f.id ++ "\", \"type\": \"".data ++ f.type ++
  "\", \"function\": \x7b\"name\": \"".data ++ f.fname ++
  "\", \"arguments\": \"".data ++ f.arguments ++ "\"\x7d\x7d".data

/-- A repr-like rendering of a stored tool-call list. -/
def toolCallsRepr (tcs : List FormattedToolCall) : PyStr :=
  '[' :: joinNL [joinNL (tcs.map formattedRepr)] ++ [']']

/-- `SummaryMemory._format_conversation`: one `[ROLE]: content` line per
message (content truncated to 500 characters), with an indented
`Tool calls:` line after assistant messages that carry tool calls. -/
def formatConversation (msgs : List Message) : PyStr :=
  joinNL (msgs.flatMap fun m =>
    ('[' :: roleUpper m.role ++ "]: ".data ++
      (if m.content.length > 500 then m.content.take 500 else m.content)) ::
    (match m.tool_calls with
     | some (t :: ts) => ["  Tool calls: ".data ++ toolCallsRepr (t :: ts)]
     | _ => []))

/-- The external `litellm` interface used by `SummaryMemory`: token
counting for a message and for plain text, and the two summarization
completions (each composed with its prompt template from
`prompt/memory.py`). -/
structure SummaryOracle where
  countMsg : Message → Nat
  countText : PyStr → Nat
  summarize : PyStr → PyStr
  compress : Nat → PyStr → PyStr

/-- The state of a `SummaryMemory` instance.  `summaryFile` models the
content of the one file this instance owns on disk
(`<workspace>/<task_id>/summary.md`), `none` meaning the file is absent. -/
structure SummaryMemory where
  task_id : PyStr
  workspace : PyStr
  reserve_ratio : ℚ
  max_tokens : Nat
  messages : List Message
  token_counts : List Nat
  summary : Option PyStr
  summary_tokens : Nat
  summaryFile : Option PyStr

namespace SummaryMemory

/-- `_reserve_tokens`: `int(max_tokens * reserve_ratio)` (the ratio is an
exact rational in this model). -/
def reserveTokens (m : SummaryMemory) : Nat :=
  ((m.max_tokens : ℚ) * m.reserve_ratio).floor.toNat

/-- `_summary_budget = max_tokens - reserve_tokens`. -/
def summaryBudget (m : SummaryMemory) : Nat :=
  m.max_tokens - reserveTokens m

/-- `token_count`: sum of the retained per-message token counts. -/
def tokenCount (m : SummaryMemory) : Nat := m.token_counts.sum

/-- `total_tokens = summary_tokens + token_count`. -/
def totalTokens (m : SummaryMemory) : Nat := m.summary_tokens + tokenCount m

/-- The keep-suffix loop of `_do_summary`: walk the reversed token counts,
accumulating a keep count and keep token total, stopping before the total
would exceed the reserve. -/
def keepLoop (reserve : Nat) : List Nat → Nat × Nat → Nat × Nat
  | [], acc => acc
  | t :: rest, acc =>
    if acc.2 + t > reserve then acc
    else keepLoop reserve rest (acc.1 + 1, acc.2 + t)

/-- `keep_count = max(loop count, 1)`: at least one recent message is kept. -/
def keepCount (m : SummaryMemory) : Nat :=
  max (keepLoop (reserveTokens m) m.token_counts.reverse (0, 0)).1 1

/-- `_compress_summary`: rewrite the summary to fit the budget via the
compress prompt, re-parsing with the same JSON-extraction rule. -/
def compressSummary (o : SummaryOracle) (m : SummaryMemory) : SummaryMemory :=
  if pyTruthy m.summary then
    let raw := o.compress (summaryBudget m) (m.summary.getD [])
    let ns := summaryFormat (parseSummary raw)
    { m with summary := some ns, summary_tokens := o.countText ns }
  else m

/-- `_save_summary`: write `self._summary or ""` to the summary file. -/
def saveSummary (m : SummaryMemory) : SummaryMemory :=
  { m with summaryFile := some (m.summary.getD []) }

/-- `_do_summary`: compress old messages into the standing summary, keep
only the most recent suffix, and persist the summary. -/
def doSummary (o : SummaryOracle) (m : SummaryMemory) : SummaryMemory :=
  let kc := keepCount m
  let to_summarize := m.messages.take (m.messages.length - kc)
  let to_keep := m.messages.drop (m.messages.length - kc)
  let tokens_to_keep := m.token_counts.drop (m.token_counts.length - kc)
  if to_summarize.isEmpty then
    if pyTruthy m.summary && decide (m.summary_tokens > summaryBudget m) then
      compressSummary o m
    else m
  else
    let raw := o.summarize (formatConversation to_summarize)
    let ns0 := summaryFormat (parseSummary raw)
    let ns :=
      if pyTruthy m.summary then m.summary.getD [] ++ "\n\n---\n\n".data ++ ns0
      else ns0
    let m1 := { m with summary := some ns, summary_tokens := o.countText ns }
    let m2 :=
      if m1.summary_tokens > summaryBudget m1 then compressSummary o m1 else m1
    let m3 := saveSummary m2
    { m3 with messages := to_keep, token_counts := tokens_to_keep }

/-- `add`: count the message's tokens, append message and count, and
compress when `total_tokens` exceeds `max_tokens`. -/
def add (o : SummaryOracle) (m : SummaryMemory) (msg : Message) : SummaryMemory :=
  let t := o.countMsg msg
  let m1 := { m with messages := m.messages ++ [msg],
                     token_counts := m.token_counts ++ [t] }
  if totalTokens m1 > m1.max_tokens then doSummary o m1 else m1

/-- `clear`: drop all retained state and delete the summary file. -/
def clear (m : SummaryMemory) : SummaryMemory :=
  { m with messages := [], token_counts := [], summary := none,
           summary_tokens := 0, summaryFile := none }

/-- Construction: empty message lists; `_load_existing_summary` adopts a
pre-existing summary file's content and token count. -/
def init (o : SummaryOracle) (task_id workspace : PyStr) (reserve_ratio : ℚ)
    (max_tokens : Nat) (existingFile : Option PyStr) : SummaryMemory :=
  { task_id := task_id, workspace := workspace,
    reserve_ratio := reserve_ratio, max_tokens := max_tokens,
    messages := [], token_counts := [],
    summary := existingFile,
    summary_tokens := match existingFile with
      | some s => o.countText s
      | none => 0,
    summaryFile := existingFile }

/-- `get_messages`: a synthetic summary system message, if a summary
exists, followed by the retained messages. -/
def getMessages (m : SummaryMemory) : List Message :=
  (if pyTruthy m.summary then
    [Message.system ("Previous conversation summary:\n".data ++ m.summary.getD [])]
   else []) ++ m.messages

end SummaryMemory

/-!
## ReAct agent (`agent/react_agent.py`)

The parent class `ToolAgent` (`agent/tool_agent.py`) and the prompt
constants (`prompt/react.py`) are not under `src/`; following the spec
(§4.8.1, §4.3): `add_message` appends to the memory's message list, the
outbound message list is the system prompt followed by the memory's
messages, tool execution is a function from name and arguments to a string
result, and the end token is an exact literal string, carried here as a
parameter.  The model binding (`call_with_history`) is a function from the
outbound message list to a response.
-/

namespace ReactAgent

/-- `_is_finished`: does the output contain the termination token? -/
def isFinished (endToken content : PyStr) : Bool :=
  Py.strIn endToken content

/-- `_extract_final_answer`: `content.split(END)[0].strip()` when the token
occurs, the content unchanged otherwise. -/
def extractFinalAnswer (endToken content : PyStr) : PyStr :=
  if Py.strIn endToken content then Py.strip (Py.splitFirst endToken content)
  else content

/-- The outbound message list: system prompt message, then memory. -/
def buildMessages (systemPrompt : PyStr) (mem : List Message) : List Message :=
  Message.system systemPrompt :: mem

/-- The result of a `run`: the returned string, the final memory state, and
the number of model invocations made. -/
structure RunResult where
  answer : PyStr
  memory : List Message
  modelCalls : Nat
deriving DecidableEq, Repr

/-- The iteration loop of `ReactAgent.run` (`for i in range(max_iterations)`),
instrumented with the model-invocation count.  `model` is the bound
`call_with_history`; `execTool` is `ToolAgent._execute_tool`. -/
def runLoop (endToken : PyStr) (model : List Message → LLMResponse)
    (execTool : PyStr → JsonFields → PyStr) (systemPrompt : PyStr) :
    Nat → List Message → Nat → RunResult
  | 0, mem, calls => ⟨"Max iterations reached".data, mem, calls⟩
  | fuel + 1, mem, calls =>
    let response := model (buildMessages systemPrompt mem)
    if isFinished endToken response.content then
      let final := extractFinalAnswer endToken response.content
      ⟨final, mem ++ [Message.assistant final], calls + 1⟩
    else
      match response.tool_calls with
      | none =>
        runLoop endToken model execTool systemPrompt fuel
          (mem ++ [Message.assistant response.content]) (calls + 1)
      | some tcs =>
        if tcs.isEmpty then
          runLoop endToken model execTool systemPrompt fuel
            (mem ++ [Message.assistant response.content]) (calls + 1)
        else
          let formatted := ToolManager.formatToolCalls tcs
          let mem1 := mem ++ [Message.assistant response.content (some formatted)]
          let mem2 := mem1 ++ tcs.map fun tc =>
            Message.tool (execTool tc.name tc.arguments) tc.id
          runLoop endToken model execTool systemPrompt fuel mem2 (calls + 1)

/-- `ReactAgent.run`: append the user message, then iterate
(`range(max_iterations)` is empty for a non-positive bound). -/
def run (endToken : PyStr) (model : List Message → LLMResponse)
    (execTool : PyStr → JsonFields → PyStr) (systemPrompt : PyStr)
    (maxIterations : Int) (mem : List Message) (userInput : PyStr) : RunResult :=
  runLoop endToken model execTool systemPrompt maxIterations.toNat
    (mem ++ [Message.user userInput]) 0

end ReactAgent

/-!
## Configuration loading (`config/base.py`)
-/

namespace BaseConfig

/-- How `BaseConfig.load` resolved its configuration file. -/
inductive ConfigPath where
  | explicitPath (p : PyStr)
  | envPath (p : PyStr)
  | packagedDefault
deriving DecidableEq, Repr

/-- `_get_default_config`: the `EA_DEFAULT_CONFIG` environment variable
(when set and non-empty, expanded and resolved to an absolute path by
`expandResolve`, the model of `Path.expanduser().resolve()`), else the
packaged `config.yaml` next to the configuration module. -/
def getDefaultConfig (expandResolve : PyStr → PyStr)
    (envVar : Option PyStr) : ConfigPath :=
  match envVar with
  | some e => if e.isEmpty then .packagedDefault else .envPath (expandResolve e)
  | none => .packagedDefault

/-- The path-resolution step of `BaseConfig.load`:
`Path(path) if path else _get_default_config()` (an explicit empty-string
path is falsy in Python). -/
def loadConfigPath (expandResolve : PyStr → PyStr)
    (pathArg : Option PyStr) (envVar : Option PyStr) : ConfigPath :=
  match pathArg with
  | some p =>
    if p.isEmpty then getDefaultConfig expandResolve envVar
    else .explicitPath p
  | none => getDefaultConfig expandResolve envVar

end BaseConfig

/-!
## Claim theorems
-/

/-- C2: for every model response whose content contains the ReAct end token,
the run loop returns exactly the text preceding the first occurrence of the
token, trimmed of surrounding whitespace; the assistant message appended to
memory as the final message is that same text, and it never contains the
token (nor any text after it). -/
theorem react_final_answer_extraction
    (endToken : PyStr) (model : List Message → LLMResponse)
    (execTool : PyStr → JsonFields → PyStr) (systemPrompt : PyStr)
    (fuel calls : Nat) (mem : List Message)
    (htok : endToken ≠ [])
    (hfin : ReactAgent.isFinished endToken
      (model (ReactAgent.buildMessages systemPrompt mem)).content = true) :
    ReactAgent.runLoop endToken model execTool systemPrompt (fuel + 1) mem calls =
      ⟨Py.strip (Py.splitFirst endToken
          (model (ReactAgent.buildMessages systemPrompt mem)).content),
        mem ++ [Message.assistant (Py.strip (Py.splitFirst endToken
          (model (ReactAgent.buildMessages systemPrompt mem)).content))],
        calls + 1⟩ ∧
    Py.strIn endToken (Py.strip (Py.splitFirst endToken
      (model (ReactAgent.buildMessages systemPrompt mem)).content)) = false := by
  constructor
  · rw [ReactAgent.runLoop]
    rw [if_pos hfin]
    rw [ReactAgent.extractFinalAnswer]
    rw [ReactAgent.isFinished] at hfin
    rw [if_pos hfin]
  · apply Py.strIn_eq_false_of_substring endToken
      (Py.splitFirst endToken (model (ReactAgent.buildMessages systemPrompt mem)).content)
    · exact Py.strip_infix_self _
    · exact Py.strIn_splitFirst endToken _ htok

/-- Witness for C2 at a concrete end token, model and memory. -/
theorem react_final_answer_extraction_witness :
    ("<END>".data ≠ ([] : PyStr)) ∧
    ReactAgent.isFinished "<END>".data
      ((fun _ : List Message => ({ content := " the answer is 42 <END> ignored".data } : LLMResponse))
        (ReactAgent.buildMessages "sys".data [])).content = true ∧
    (ReactAgent.runLoop "<END>".data
        (fun _ : List Message => ({ content := " the answer is 42 <END> ignored".data } : LLMResponse))
        (fun _ _ => [] : PyStr → JsonFields → PyStr) "sys".data 2 [] 0 =
      ⟨Py.strip (Py.splitFirst "<END>".data " the answer is 42 <END> ignored".data),
        [Message.assistant (Py.strip (Py.splitFirst "<END>".data
          " the answer is 42 <END> ignored".data))],
        1⟩ ∧
      Py.strIn "<END>".data (Py.strip (Py.splitFirst "<END>".data
        " the answer is 42 <END> ignored".data)) = false) := by
  refine ⟨by decide, by decide, ?_⟩
  have h := react_final_answer_extraction "<END>".data
    (fun _ : List Message => ({ content := " the answer is 42 <END> ignored".data } : LLMResponse))
    (fun _ _ => [] : PyStr → JsonFields → PyStr) "sys".data 1 0 []
    (by decide) (by decide)
  simpa using h

/-- When the model never emits the end token and never requests tools, the
loop exhausts its fuel, invoking the model once per iteration. -/
theorem runLoop_exhausts
    (endToken : PyStr) (model : List Message → LLMResponse)
    (execTool : PyStr → JsonFields → PyStr) (systemPrompt : PyStr)
    (hmodel : ∀ msgs, ReactAgent.isFinished endToken (model msgs).content = false ∧
      ((model msgs).tool_calls = none ∨ (model msgs).tool_calls = some [])) :
    ∀ (fuel : Nat) (mem : List Message) (calls : Nat),
      (ReactAgent.runLoop endToken model execTool systemPrompt fuel mem calls).answer =
        "Max iterations reached".data ∧
      (ReactAgent.runLoop endToken model execTool systemPrompt fuel mem calls).modelCalls =
        calls + fuel := by
  intro fuel
  induction fuel with
  | zero => intro mem calls; exact ⟨rfl, rfl⟩
  | succ f ih =>
    intro mem calls
    obtain ⟨hfin, htc⟩ := hmodel (ReactAgent.buildMessages systemPrompt mem)
    rcases htc with h | h
    · rw [ReactAgent.runLoop, if_neg (by rw [hfin]; exact Bool.false_ne_true), h]
      have hi := ih (mem ++ [Message.assistant
        (model (ReactAgent.buildMessages systemPrompt mem)).content]) (calls + 1)
      refine ⟨hi.1, ?_⟩
      rw [hi.2]
      omega
    · rw [ReactAgent.runLoop, if_neg (by rw [hfin]; exact Bool.false_ne_true), h]
      simp only [List.isEmpty_nil, if_pos]
      have hi := ih (mem ++ [Message.assistant
        (model (ReactAgent.buildMessages systemPrompt mem)).content]) (calls + 1)
      refine ⟨hi.1, ?_⟩
      rw [hi.2]
      omega

/-- C3: a ReAct agent with `max_iterations = 3` whose model binding always
returns a response with no tool calls and whose content never contains the
end token returns exactly `"Max iterations reached"`, after exactly 3
invocations of `call_with_history`, never more. -/
theorem react_iteration_cap
    (endToken : PyStr) (model : List Message → LLMResponse)
    (execTool : PyStr → JsonFields → PyStr) (systemPrompt : PyStr)
    (mem : List Message) (userInput : PyStr)
    (hmodel : ∀ msgs, ReactAgent.isFinished endToken (model msgs).content = false ∧
      ((model msgs).tool_calls = none ∨ (model msgs).tool_calls = some [])) :
    (ReactAgent.run endToken model execTool systemPrompt 3 mem userInput).answer =
      "Max iterations reached".data ∧
    (ReactAgent.run endToken model execTool systemPrompt 3 mem userInput).modelCalls = 3 := by
  rw [ReactAgent.run]
  have h := runLoop_exhausts endToken model execTool systemPrompt hmodel
    ((3 : Int).toNat) (mem ++ [Message.user userInput]) 0
  simpa using h

/-- Witness for C3 at a concrete model that always free-types. -/
theorem react_iteration_cap_witness :
    (∀ msgs, ReactAgent.isFinished "<END>".data
        ((fun _ : List Message => ({ content := "thinking".data } : LLMResponse)) msgs).content
          = false ∧
      (((fun _ : List Message => ({ content := "thinking".data } : LLMResponse)) msgs).tool_calls
          = none ∨
        ((fun _ : List Message => ({ content := "thinking".data } : LLMResponse)) msgs).tool_calls
          = some [])) ∧
    ((ReactAgent.run "<END>".data
        (fun _ : List Message => ({ content := "thinking".data } : LLMResponse))
        (fun _ _ => [] : PyStr → JsonFields → PyStr) "sys".data 3 [] "go".data).answer =
      "Max iterations reached".data ∧
      (ReactAgent.run "<END>".data
        (fun _ : List Message => ({ content := "thinking".data } : LLMResponse))
        (fun _ _ => [] : PyStr → JsonFields → PyStr) "sys".data 3 [] "go".data).modelCalls = 3) :=
  have hm : ∀ msgs : List Message, ReactAgent.isFinished "<END>".data
      ((fun _ : List Message => ({ content := "thinking".data } : LLMResponse)) msgs).content
        = false ∧
      (((fun _ : List Message => ({ content := "thinking".data } : LLMResponse)) msgs).tool_calls
        = none ∨
      ((fun _ : List Message => ({ content := "thinking".data } : LLMResponse)) msgs).tool_calls
        = some []) := by
    intro msgs
    refine ⟨?_, Or.inl rfl⟩
    show ReactAgent.isFinished "<END>".data "thinking".data = false
    decide
  ⟨hm, react_iteration_cap "<END>".data
      (fun _ : List Message => ({ content := "thinking".data } : LLMResponse))
      (fun _ _ => [] : PyStr → JsonFields → PyStr) "sys".data [] "go".data hm⟩

/-- C10: a ReAct agent constructed with `max_iterations` zero or negative
returns `"Max iterations reached"` without invoking the model at all, while
the user's input has still been appended to memory as a user message. -/
theorem react_zero_iterations
    (endToken : PyStr) (model : List Message → LLMResponse)
    (execTool : PyStr → JsonFields → PyStr) (systemPrompt : PyStr)
    (mem : List Message) (userInput : PyStr) (maxIterations : Int)
    (h : maxIterations ≤ 0) :
    ReactAgent.run endToken model execTool systemPrompt maxIterations mem userInput =
      ⟨"Max iterations reached".data, mem ++ [Message.user userInput], 0⟩ := by
  rw [ReactAgent.run, Int.toNat_of_nonpos h, ReactAgent.runLoop]

/-- Witness for C10 at `max_iterations = -1`. -/
theorem react_zero_iterations_witness :
    ((-1 : Int) ≤ 0) ∧
    ReactAgent.run "<END>".data
        (fun _ : List Message => ({ content := "thinking".data } : LLMResponse))
        (fun _ _ => [] : PyStr → JsonFields → PyStr) "sys".data (-1) [] "go".data =
      ⟨"Max iterations reached".data, [Message.user "go".data], 0⟩ := by
  refine ⟨by decide, ?_⟩
  have h := react_zero_iterations "<END>".data
    (fun _ : List Message => ({ content := "thinking".data } : LLMResponse))
    (fun _ _ => [] : PyStr → JsonFields → PyStr) "sys".data [] "go".data (-1) (by decide)
  simpa using h

/-- Mapping after filtering through an optional lookup is a flat map. -/
theorem filterMap_map_eq_flatMap {α β γ : Type} (l : List α) (f : α → Option β)
    (g : β → γ) :
    (l.filterMap f).map g = l.flatMap fun a => ((f a).map g).toList := by
  induction l with
  | nil => rfl
  | cons a t ih =>
    cases h : f a <;> simp [List.filterMap_cons, h, ih]

/-- A registry with one registered tool, used to exhibit the empty-names
behavior of `get_schema`. -/
def exC4Mgr : ToolManager :=
  ToolManager.register ⟨[]⟩
    { name := "calc".data, type := "function".data, description := "adds".data }

/-- C4 counterexample: the claim predicts that `get_schema([])` returns one
entry per named registered tool — i.e. no entries — but Python's truthiness
test `if names:` treats an empty list like an omitted argument, so the
schema of every registered tool is returned. -/
theorem get_schema_empty_names_counterexample :
    (ToolManager.getSchema exC4Mgr (some [])).length = 1 ∧
    (ToolManager.getSchema exC4Mgr (some [])).map (fun s => s.fname) = ["calc".data] ∧
    ToolManager.getSchema exC4Mgr (some []) = ToolManager.getSchema exC4Mgr none := by
  refine ⟨rfl, by decide, rfl⟩

/-- C4 as amended: for every NON-EMPTY list of names, `get_schema` returns
exactly one schema entry per occurrence of a name with a currently
registered tool, in order, silently skipping unknown names; when the names
argument is omitted OR IS THE EMPTY LIST it returns schema entries for
every registered tool. -/
theorem get_schema_amended (m : ToolManager) (names : List PyStr)
    (h : names ≠ []) :
    ToolManager.getSchema m (some names) =
      (names.flatMap fun n =>
        ((List.lookup n m.tools).map ToolManager.toolToSchema).toList) ∧
    ToolManager.getSchema m (some []) =
      m.tools.map (fun p => ToolManager.toolToSchema p.2) ∧
    ToolManager.getSchema m none =
      m.tools.map (fun p => ToolManager.toolToSchema p.2) := by
  refine ⟨?_, by simp [ToolManager.getSchema], by simp [ToolManager.getSchema]⟩
  rw [ToolManager.getSchema]
  simp only [List.isEmpty_iff, if_neg h]
  exact filterMap_map_eq_flatMap names _ _

/-- Witness for C4's amended claim on a concrete registry, with one known,
one unknown and one repeated name. -/
theorem get_schema_amended_witness :
    (["calc".data, "nope".data, "calc".data] ≠ ([] : List PyStr)) ∧
    (ToolManager.getSchema exC4Mgr (some ["calc".data, "nope".data, "calc".data]) =
      (["calc".data, "nope".data, "calc".data].flatMap fun n =>
        ((List.lookup n exC4Mgr.tools).map ToolManager.toolToSchema).toList) ∧
    ToolManager.getSchema exC4Mgr (some []) =
      exC4Mgr.tools.map (fun p => ToolManager.toolToSchema p.2) ∧
    ToolManager.getSchema exC4Mgr none =
      exC4Mgr.tools.map (fun p => ToolManager.toolToSchema p.2)) :=
  ⟨by decide, get_schema_amended exC4Mgr ["calc".data, "nope".data, "calc".data] (by decide)⟩

/-- A default tool value (for typeclass searches over registry entries). -/
instance : Inhabited Tool := ⟨{ name := [], type := [], description := [] }⟩

namespace ToolManager

/-- After `d[k] = v`, looking up `k` yields `v`. -/
theorem lookup_dictSet_self (d : List (PyStr × Tool)) (k : PyStr) (v : Tool) :
    List.lookup k (dictSet d k v) = some v := by
  induction d with
  | nil => simp [dictSet, List.lookup]
  | cons p rest ih =>
    by_cases h : p.1 = k
    · simp [dictSet, h, List.lookup]
    · have hb : (k == p.1) = false := by simp [Ne.symm h]
      simp [dictSet, h, List.lookup, hb, ih]

/-- `d[k] = v` keeps the key sequence, appending `k` only when absent. -/
theorem keys_dictSet (d : List (PyStr × Tool)) (k : PyStr) (v : Tool) :
    (dictSet d k v).map (fun p => p.1) =
      if k ∈ d.map (fun p => p.1) then d.map (fun p => p.1)
      else d.map (fun p => p.1) ++ [k] := by
  induction d with
  | nil => simp [dictSet]
  | cons p rest ih =>
    by_cases h : p.1 = k
    · simp [dictSet, h]
    · simp only [dictSet, if_neg h, List.map_cons, ih]
      by_cases hm : k ∈ rest.map (fun p => p.1)
      · simp [hm, Ne.symm h]
      · simp [hm, Ne.symm h]

/-- `d[k] = v` preserves key distinctness. -/
theorem nodup_keys_dictSet (d : List (PyStr × Tool)) (k : PyStr) (v : Tool)
    (h : (d.map fun p => p.1).Nodup) :
    ((dictSet d k v).map fun p => p.1).Nodup := by
  rw [keys_dictSet]
  by_cases hm : k ∈ d.map (fun p => p.1)
  · simpa [hm] using h
  · simp only [if_neg hm]
    rw [List.nodup_append]
    exact ⟨h, List.nodup_singleton k, by simpa using fun hk => hm hk⟩

/-- A duplicate-free list counts each of its members exactly once. -/
theorem count_eq_one_of_nodup {α : Type} [BEq α] [LawfulBEq α] {l : List α}
    {a : α} (h : l.Nodup) (hm : a ∈ l) : l.count a = 1 := by
  induction l with
  | nil => cases hm
  | cons b t ih =>
    rcases List.mem_cons.mp hm with rfl | hm2
    · rw [List.count_cons_self]
      have hnot : a ∉ t := (List.nodup_cons.mp h).1
      rw [List.count_eq_zero.mpr hnot]
    · have hba : ¬a = b := fun e => (List.nodup_cons.mp h).1 (e ▸ hm2)
      rw [List.count_cons_of_ne hba]
      exact ih (List.nodup_cons.mp h).2 hm2

/-- Under distinct keys, `d[k] = v` leaves exactly one entry keyed `k`. -/
theorem count_keys_dictSet (d : List (PyStr × Tool)) (k : PyStr) (v : Tool)
    (h : (d.map fun p => p.1).Nodup) :
    ((dictSet d k v).map fun p => p.1).count k = 1 := by
  have hmem : k ∈ (dictSet d k v).map fun p => p.1 := by
    rw [keys_dictSet]
    by_cases hm : k ∈ d.map (fun p => p.1) <;> simp [hm]
  exact count_eq_one_of_nodup (nodup_keys_dictSet d k v h) hmem

/-- `d[k] = v` with `k = v.name` preserves the registry invariant that each
entry is stored under its tool's name. -/
theorem names_dictSet (d : List (PyStr × Tool)) (v : Tool)
    (h : ∀ p ∈ d, p.1 = p.2.name) :
    ∀ p ∈ dictSet d v.name v, p.1 = p.2.name := by
  induction d with
  | nil => simp [dictSet]
  | cons q rest ih =>
    by_cases hq : q.1 = v.name
    · simp only [dictSet, if_pos hq]
      intro p hp
      rcases List.mem_cons.mp hp with rfl | hp
      · rfl
      · exact h p (List.mem_cons_of_mem q hp)
    · simp only [dictSet, if_neg hq]
      intro p hp
      rcases List.mem_cons.mp hp with hpq | hp
      · exact hpq ▸ h q (List.mem_cons_self q rest)
      · exact ih (fun r hr => h r (List.mem_cons_of_mem q hr)) p hp

end ToolManager

/-- C8: registering two tools sharing one name on a registry with distinct
keys (each entry stored under its tool's name) leaves exactly one entry
under that name — the tool registered second; `get_schema()` returns no
duplicate entries for that name; and the second registration is an
ordinary total operation (no error path exists). -/
theorem register_overwrite_semantics (m : ToolManager) (t1 t2 : Tool)
    (hname : t1.name = t2.name)
    (hnodup : (m.tools.map fun p => p.1).Nodup)
    (hinv : ∀ p ∈ m.tools, p.1 = p.2.name) :
    ((m.register t1).register t2).get t1.name = some t2 ∧
    ((((m.register t1).register t2).tools.map fun p => p.1).count t1.name = 1) ∧
    (((ToolManager.getSchema ((m.register t1).register t2) none).map
        fun s => s.fname).count t1.name = 1) := by
  have hnodup1 := ToolManager.nodup_keys_dictSet m.tools t1.name t1 hnodup
  have hinv1 : ∀ p ∈ (m.register t1).tools, p.1 = p.2.name :=
    ToolManager.names_dictSet m.tools t1 hinv
  have hinv2 : ∀ p ∈ ((m.register t1).register t2).tools, p.1 = p.2.name :=
    ToolManager.names_dictSet (m.register t1).tools t2 hinv1
  refine ⟨?_, ?_, ?_⟩
  · rw [hname]
    exact ToolManager.lookup_dictSet_self (m.register t1).tools t2.name t2
  · rw [hname]
    exact ToolManager.count_keys_dictSet (m.register t1).tools t2.name t2 hnodup1
  · have hmap : ((ToolManager.getSchema ((m.register t1).register t2) none).map
        fun s => s.fname) =
        (((m.register t1).register t2).tools.map fun p => p.1) := by
      rw [ToolManager.getSchema]
      simp only [List.map_map]
      exact List.map_congr_left fun p hp => (hinv2 p hp).symm
    rw [hmap, hname]
    exact ToolManager.count_keys_dictSet (m.register t1).tools t2.name t2 hnodup1

/-- The first of two same-named tools. -/
def exT1 : Tool := { name := "calc".data, type := "function".data, description := "v1".data }

/-- The second of two same-named tools. -/
def exT2 : Tool := { name := "calc".data, type := "function".data, description := "v2".data }

/-- Witness for C8 on a concrete registry with two same-named tools. -/
theorem register_overwrite_semantics_witness :
    (exT1.name = exT2.name) ∧
    ((((⟨[]⟩ : ToolManager).register exT1).register exT2).get exT1.name = some exT2 ∧
    (((((⟨[]⟩ : ToolManager).register exT1).register exT2).tools.map
        fun p => p.1).count exT1.name = 1) ∧
    (((ToolManager.getSchema (((⟨[]⟩ : ToolManager).register exT1).register exT2) none).map
        fun s => s.fname).count exT1.name = 1)) :=
  ⟨rfl, register_overwrite_semantics ⟨[]⟩ exT1 exT2 rfl (by simp) (by simp)⟩

/-- C5: applying `format_tool_calls` and then JSON-decoding each entry's
`function.arguments` string yields back the original arguments mapping of
the corresponding call, with call order, each `id` and each function name
preserved. -/
theorem format_tool_calls_roundtrip (tcs : List ToolCall) :
    (ToolManager.formatToolCalls tcs).map (fun f => f.id) =
      tcs.map (fun tc => tc.id) ∧
    (ToolManager.formatToolCalls tcs).map (fun f => f.fname) =
      tcs.map (fun tc => tc.name) ∧
    (ToolManager.formatToolCalls tcs).map (fun f => Json.loads f.arguments) =
      tcs.map (fun tc => some (Json.obj tc.arguments)) := by
  refine ⟨?_, ?_, ?_⟩
  · rw [ToolManager.formatToolCalls, List.map_map]
    rfl
  · rw [ToolManager.formatToolCalls, List.map_map]
    rfl
  · rw [ToolManager.formatToolCalls, List.map_map]
    exact List.map_congr_left fun tc _ => Json.loads_dumps (.obj tc.arguments)

/-- C6: for every raw summarization response containing no `{`...`}` JSON
span, `_parse_summary` returns — without any decode error path — a record
whose `task_context` is the first 500 characters of the raw response and
whose other four fields are the literal string `"N/A"`. -/
theorem parse_summary_fallback (raw : PyStr) (h : hasJsonSpan raw = false) :
    parseSummary raw =
      { task_context := raw.take 500, key_decisions := "N/A".data,
        actions_taken := "N/A".data, current_state := "N/A".data,
        important_info := "N/A".data } := by
  rcases hf : pyFind '{' raw with _ | s
  · rcases hr : pyRFind '}' raw with _ | e <;>
      simp [parseSummary, hf, hr, fallbackRecord, defaultRecord]
  · rcases hr : pyRFind '}' raw with _ | e
    · simp [parseSummary, hf, hr, fallbackRecord, defaultRecord]
    · rw [hasJsonSpan, hf, hr] at h
      have h2 : decide (e + 1 > s) = false := h
      have hle : ¬e + 1 > s := by simpa using h2
      simp [parseSummary, hf, hr, hle, fallbackRecord, defaultRecord]

/-- Witness for C6 on a concrete brace-free response. -/
theorem parse_summary_fallback_witness :
    hasJsonSpan "no json in sight".data = false ∧
    parseSummary "no json in sight".data =
      { task_context := "no json in sight".data.take 500,
        key_decisions := "N/A".data, actions_taken := "N/A".data,
        current_state := "N/A".data, important_info := "N/A".data } :=
  ⟨by decide, parse_summary_fallback "no json in sight".data (by decide)⟩

/-- C7: `BaseConfig.load` resolves the configuration file in the order:
explicit (non-empty) path argument first, else the `EA_DEFAULT_CONFIG`
environment variable's value (expanded and resolved to an absolute path),
else the packaged `config.yaml` alongside the configuration module. -/
theorem config_path_resolution_order (expandResolve : PyStr → PyStr)
    (p e : PyStr) (hp : p ≠ []) (he : e ≠ []) :
    (∀ env : Option PyStr,
      BaseConfig.loadConfigPath expandResolve (some p) env =
        .explicitPath p) ∧
    BaseConfig.loadConfigPath expandResolve none (some e) =
      .envPath (expandResolve e) ∧
    BaseConfig.loadConfigPath expandResolve none none = .packagedDefault := by
  refine ⟨fun env => ?_, ?_, rfl⟩
  · simp [BaseConfig.loadConfigPath, List.isEmpty_iff, hp]
  · simp [BaseConfig.loadConfigPath, BaseConfig.getDefaultConfig,
      List.isEmpty_iff, he]

/-- Witness for C7 with all three sources present. -/
theorem config_path_resolution_order_witness :
    ("cli.yaml".data ≠ ([] : PyStr)) ∧ ("env.yaml".data ≠ ([] : PyStr)) ∧
    ((∀ env : Option PyStr,
      BaseConfig.loadConfigPath id (some "cli.yaml".data) env =
        .explicitPath "cli.yaml".data) ∧
    BaseConfig.loadConfigPath id none (some "env.yaml".data) =
      .envPath (id "env.yaml".data) ∧
    BaseConfig.loadConfigPath id none none = .packagedDefault) :=
  ⟨by decide, by decide,
    config_path_resolution_order id "cli.yaml".data "env.yaml".data
      (by decide) (by decide)⟩

namespace SummaryMemory

/-- The bookkeeping correspondence of a `SummaryMemory`: one token count
per retained message, and `token_count` is their sum. -/
def inv (m : SummaryMemory) : Prop :=
  m.messages.length = m.token_counts.length ∧ m.tokenCount = m.token_counts.sum

/-- `_compress_summary` leaves the retained message and count lists alone. -/
theorem compressSummary_lists (o : SummaryOracle) (m : SummaryMemory) :
    (compressSummary o m).messages = m.messages ∧
    (compressSummary o m).token_counts = m.token_counts := by
  rw [compressSummary]
  split <;> exact ⟨rfl, rfl⟩

/-- `_do_summary` preserves the length correspondence. -/
theorem doSummary_length (o : SummaryOracle) (m : SummaryMemory)
    (h : m.messages.length = m.token_counts.length) :
    (doSummary o m).messages.length = (doSummary o m).token_counts.length := by
  rw [doSummary]
  simp only []
  split
  · split
    · rw [(compressSummary_lists o m).1, (compressSummary_lists o m).2]
      exact h
    · exact h
  · simp only [List.length_drop]
    omega

end SummaryMemory

/-- C9: in every `SummaryMemory`, construction establishes — and `add`,
`clear` and the compression step `_do_summary` each preserve — the
correspondence that the retained-message list and the per-message
token-count list have equal length and that `token_count` is the sum of
the token-count list. -/
theorem summary_memory_length_invariant (o : SummaryOracle) :
    (∀ (tid ws : PyStr) (rr : ℚ) (mt : Nat) (ef : Option PyStr),
      SummaryMemory.inv (SummaryMemory.init o tid ws rr mt ef)) ∧
    (∀ (m : SummaryMemory) (msg : Message), SummaryMemory.inv m →
      SummaryMemory.inv (SummaryMemory.add o m msg)) ∧
    (∀ m : SummaryMemory, SummaryMemory.inv m →
      SummaryMemory.inv (SummaryMemory.clear m)) ∧
    (∀ m : SummaryMemory, SummaryMemory.inv m →
      SummaryMemory.inv (SummaryMemory.doSummary o m)) := by
  refine ⟨fun tid ws rr mt ef => ⟨rfl, rfl⟩, ?_, fun m _ => ⟨rfl, rfl⟩, ?_⟩
  · intro m msg hm
    rw [SummaryMemory.add]
    simp only []
    split
    · refine ⟨SummaryMemory.doSummary_length o _ ?_, rfl⟩
      simp [hm.1]
    · exact ⟨by simp [hm.1], rfl⟩
  · intro m hm
    exact ⟨SummaryMemory.doSummary_length o m hm.1, rfl⟩

/-- A concrete oracle for witnesses: token counts are string lengths and
summarization responses are fixed strings. -/
def exOracle : SummaryOracle :=
  { countMsg := fun msg => msg.content.length,
    countText := fun s => s.length,
    summarize := fun _ => "condensed history".data,
    compress := fun _ _ => "short".data }

/-- A concrete two-message memory state over a 1000-token budget. -/
def exMem : SummaryMemory :=
  { task_id := "t1".data, workspace := "ws".data,
    reserve_ratio := 3 / 10, max_tokens := 1000,
    messages := [Message.user "a".data, Message.user "b".data],
    token_counts := [800, 400],
    summary := none, summary_tokens := 0, summaryFile := none }

/-- Witness for C9 at concrete states. -/
theorem summary_memory_length_invariant_witness :
    SummaryMemory.inv (SummaryMemory.init exOracle "t".data "w".data (3 / 10) 1000 none) ∧
    (SummaryMemory.inv exMem ∧
      SummaryMemory.inv (SummaryMemory.add exOracle exMem (Message.user "c".data))) ∧
    SummaryMemory.inv (SummaryMemory.clear exMem) ∧
    SummaryMemory.inv (SummaryMemory.doSummary exOracle exMem) :=
  ⟨(summary_memory_length_invariant exOracle).1 "t".data "w".data (3 / 10) 1000 none,
    ⟨⟨rfl, rfl⟩, (summary_memory_length_invariant exOracle).2.1 exMem
      (Message.user "c".data) ⟨rfl, rfl⟩⟩,
    (summary_memory_length_invariant exOracle).2.2.1 exMem ⟨rfl, rfl⟩,
    (summary_memory_length_invariant exOracle).2.2.2 exMem ⟨rfl, rfl⟩⟩

namespace SummaryMemory

/-- The keep loop never lets the keep-token total exceed the reserve. -/
theorem keepLoop_snd_le (reserve : Nat) :
    ∀ (l : List Nat) (k s : Nat), s ≤ reserve →
      (keepLoop reserve l (k, s)).2 ≤ reserve := by
  intro l
  induction l with
  | nil => intro k s hs; exact hs
  | cons t rest ih =>
    intro k s hs
    rw [keepLoop]
    by_cases h : s + t > reserve
    · simpa [h] using hs
    · simp only [if_neg h]
      exact ih (k + 1) (s + t) (by omega)

/-- The keep loop's count only grows. -/
theorem keepLoop_fst_ge (reserve : Nat) :
    ∀ (l : List Nat) (k s : Nat), k ≤ (keepLoop reserve l (k, s)).1 := by
  intro l
  induction l with
  | nil => intro k s; exact Nat.le_refl k
  | cons t rest ih =>
    intro k s
    rw [keepLoop]
    by_cases h : s + t > reserve
    · simp [h]
    · simp only [if_neg h]
      exact Nat.le_trans (Nat.le_succ k) (ih (k + 1) (s + t))

/-- The keep loop counts at most the whole list. -/
theorem keepLoop_fst_le (reserve : Nat) :
    ∀ (l : List Nat) (k s : Nat),
      (keepLoop reserve l (k, s)).1 - k ≤ l.length := by
  intro l
  induction l with
  | nil => intro k s; simp [keepLoop]
  | cons t rest ih =>
    intro k s
    rw [keepLoop]
    by_cases h : s + t > reserve
    · simp [h]
    · simp only [if_neg h, List.length_cons]
      have := ih (k + 1) (s + t)
      have hge := keepLoop_fst_ge reserve rest (k + 1) (s + t)
      omega

/-- The keep loop's token total is the sum of the counted prefix. -/
theorem keepLoop_snd_sum (reserve : Nat) :
    ∀ (l : List Nat) (k s : Nat),
      (keepLoop reserve l (k, s)).2 =
        s + (l.take ((keepLoop reserve l (k, s)).1 - k)).sum := by
  intro l
  induction l with
  | nil => intro k s; simp [keepLoop]
  | cons t rest ih =>
    intro k s
    rw [keepLoop]
    by_cases h : s + t > reserve
    · simp [h]
    · simp only [if_neg h]
      have hge := keepLoop_fst_ge reserve rest (k + 1) (s + t)
      have heq := ih (k + 1) (s + t)
      have hc : (keepLoop reserve rest (k + 1, s + t)).1 - k =
          ((keepLoop reserve rest (k + 1, s + t)).1 - (k + 1)) + 1 := by omega
      rw [hc, List.take_succ_cons, List.sum_cons, heq]
      omega

end SummaryMemory

/-- The modelled summary block is never the empty string. -/
theorem summaryFormat_ne_nil (r : SummaryRecord) : summaryFormat r ≠ [] := by
  simp [summaryFormat]

/-- `_compress_summary` keeps the summary present and non-empty. -/
theorem compressSummary_getD_ne (o : SummaryOracle) (m : SummaryMemory)
    (h : m.summary.getD [] ≠ []) :
    (SummaryMemory.compressSummary o m).summary.getD [] ≠ [] := by
  rw [SummaryMemory.compressSummary]
  have htru : pyTruthy m.summary = true := by
    cases hs : m.summary with
    | none => rw [hs] at h; simp at h
    | some t => rw [hs] at h; simpa [pyTruthy, List.isEmpty_iff] using h
  rw [if_pos htru]
  simp [summaryFormat]

/-- Characterization of `_do_summary` when the to-summarize batch is
non-empty: the retained lists become the kept suffix and a non-empty
summary is persisted to the summary file. -/
theorem doSummary_spec (o : SummaryOracle) (m : SummaryMemory)
    (hne : (m.messages.take
      (m.messages.length - SummaryMemory.keepCount m)).isEmpty = false) :
    (SummaryMemory.doSummary o m).messages =
      m.messages.drop (m.messages.length - SummaryMemory.keepCount m) ∧
    (SummaryMemory.doSummary o m).token_counts =
      m.token_counts.drop (m.token_counts.length - SummaryMemory.keepCount m) ∧
    ∃ s, (SummaryMemory.doSummary o m).summaryFile = some s ∧ s ≠ [] := by
  rw [SummaryMemory.doSummary]
  rw [if_neg (by rw [hne]; exact Bool.false_ne_true)]
  refine ⟨rfl, rfl, ?_⟩
  simp only [SummaryMemory.saveSummary]
  refine ⟨_, rfl, ?_⟩
  split
  all_goals split
  all_goals
    first
      | (apply compressSummary_getD_ne
         simp [summaryFormat])
      | simp [summaryFormat]

/-- C1 as amended: whenever compression is triggered (`total_tokens`
exceeds `max_tokens`) with a non-empty batch of messages to summarize,
after `_do_summary` the retained messages' cumulative token count is at
most `reserve_tokens` — UNLESS only the single forced most-recent message
is retained (whose token count may alone exceed the reserve) — at least
one most-recent message is always retained, and a non-empty summary text
is persisted to `<workspace>/<task_id>/summary.md`. -/
theorem summary_compression_amended (o : SummaryOracle) (m : SummaryMemory)
    (hlen : m.messages.length = m.token_counts.length)
    (htrig : SummaryMemory.totalTokens m > m.max_tokens)
    (hbatch : SummaryMemory.keepCount m < m.messages.length) :
    ((SummaryMemory.doSummary o m).token_counts.sum ≤
        SummaryMemory.reserveTokens m ∨
      (SummaryMemory.doSummary o m).token_counts.length = 1) ∧
    1 ≤ (SummaryMemory.doSummary o m).messages.length ∧
    ∃ s, (SummaryMemory.doSummary o m).summaryFile = some s ∧ s ≠ [] := by
  have hkc1 : 1 ≤ SummaryMemory.keepCount m := Nat.le_max_right _ 1
  have hne : (m.messages.take
      (m.messages.length - SummaryMemory.keepCount m)).isEmpty = false := by
    have hl : (m.messages.take
        (m.messages.length - SummaryMemory.keepCount m)).length ≠ 0 := by
      rw [List.length_take]
      omega
    have hnn : m.messages.take
        (m.messages.length - SummaryMemory.keepCount m) ≠ [] := by
      intro hh
      exact hl (by rw [hh]; rfl)
    exact Bool.eq_false_iff.mpr fun ht => hnn (List.isEmpty_iff.mp ht)
  obtain ⟨hmsg, htok, hfile⟩ := doSummary_spec o m hne
  refine ⟨?_, ?_, hfile⟩
  · by_cases hc :
      (SummaryMemory.keepLoop (SummaryMemory.reserveTokens m)
        m.token_counts.reverse (0, 0)).1 = 0
    · right
      rw [htok, List.length_drop]
      have hk1 : SummaryMemory.keepCount m = 1 := by
        rw [SummaryMemory.keepCount, hc]
        omega
      omega
    · left
      have hk : SummaryMemory.keepCount m =
          (SummaryMemory.keepLoop (SummaryMemory.reserveTokens m)
            m.token_counts.reverse (0, 0)).1 := by
        rw [SummaryMemory.keepCount]
        omega
      have hsum := SummaryMemory.keepLoop_snd_sum (SummaryMemory.reserveTokens m)
        m.token_counts.reverse 0 0
      have hle := SummaryMemory.keepLoop_snd_le (SummaryMemory.reserveTokens m)
        m.token_counts.reverse 0 0 (Nat.zero_le _)
      have hrw : m.token_counts.drop
          (m.token_counts.length - SummaryMemory.keepCount m) =
          (m.token_counts.reverse.take (SummaryMemory.keepCount m)).reverse := by
        rw [List.take_reverse, List.reverse_reverse]
      rw [htok, hrw, List.sum_reverse, hk]
      rw [Nat.sub_zero] at hsum
      omega
  · rw [hmsg, List.length_drop]
    omega

/-- The reserve of the concrete 1000-token memory is 300 tokens. -/
theorem exMem_reserve : SummaryMemory.reserveTokens exMem = 300 := by
  rw [SummaryMemory.reserveTokens]
  norm_num [exMem, Rat.floor]
  decide

/-- The concrete memory keeps exactly the one most recent message. -/
theorem exMem_keepCount : SummaryMemory.keepCount exMem = 1 := by
  rw [SummaryMemory.keepCount, exMem_reserve]
  decide

/-- C1 counterexample: on a 1000-token budget with reserve ratio 0.3
(`reserve_tokens = 300`), messages of 800 and 400 tokens trigger
compression with a non-empty to-summarize batch, yet the retained
messages' cumulative token count after `_do_summary` is 400 > 300: the
forced single most-recent message exceeds the reserve, so the claim's
cumulative bound fails. -/
theorem summary_reserve_bound_counterexample :
    SummaryMemory.totalTokens exMem > exMem.max_tokens ∧
    SummaryMemory.keepCount exMem < exMem.messages.length ∧
    SummaryMemory.reserveTokens exMem = 300 ∧
    (SummaryMemory.doSummary exOracle exMem).token_counts.sum = 400 ∧
    ¬((SummaryMemory.doSummary exOracle exMem).token_counts.sum ≤
        SummaryMemory.reserveTokens exMem) := by
  have hne : (exMem.messages.take
      (exMem.messages.length - SummaryMemory.keepCount exMem)).isEmpty = false := by
    rw [exMem_keepCount]
    decide
  obtain ⟨-, htok, -⟩ := doSummary_spec exOracle exMem hne
  have hsum : (SummaryMemory.doSummary exOracle exMem).token_counts.sum = 400 := by
    rw [htok, exMem_keepCount]
    decide
  refine ⟨by decide, ?_, exMem_reserve, hsum, ?_⟩
  · rw [exMem_keepCount]
    decide
  · rw [hsum, exMem_reserve]
    decide

/-- Witness for C1's amended claim on the same concrete memory. -/
theorem summary_compression_amended_witness :
    exMem.messages.length = exMem.token_counts.length ∧
    SummaryMemory.totalTokens exMem > exMem.max_tokens ∧
    SummaryMemory.keepCount exMem < exMem.messages.length ∧
    (((SummaryMemory.doSummary exOracle exMem).token_counts.sum ≤
        SummaryMemory.reserveTokens exMem ∨
      (SummaryMemory.doSummary exOracle exMem).token_counts.length = 1) ∧
    1 ≤ (SummaryMemory.doSummary exOracle exMem).messages.length ∧
    ∃ s, (SummaryMemory.doSummary exOracle exMem).summaryFile = some s ∧ s ≠ []) :=
  ⟨rfl, by decide, by rw [exMem_keepCount]; decide,
    summary_compression_amended exOracle exMem rfl (by decide)
      (by rw [exMem_keepCount]; decide)⟩
